import Mathlib

/-!
Verification development for the CongressFDScraper repository.

The repository's pipeline (scraperDownloaderCombined.py, with
CongressionalFDScraper.py and CongressionalFDDownloader.py as the earlier
standalone scripts) is modelled shallowly:

* XML element trees are the mutual inductives `XmlNode`/`XmlForest`
  (tag, optional text, ordered children).
* Python dicts produced by `xml_member_to_dict` are association lists
  (`Record`) built with Python-dict assignment semantics (`dictInsert`:
  overwrite in place if the key exists, else append).
* `datetime.strptime(s, "%m/%d/%Y")` is `parse_mdy` (1-2 digit month 1..12,
  1-2 digit day 1..31 further validated against the month length and leap
  years, exactly 4 digit year ≥ 1, full match); its result is encoded as the
  order-preserving key `dateKey`; `datetime.min` is `dateKey (1,1,1)`.
* `sorted(members, key=parse_filing_date, reverse=True)` is the stable
  insertion sort `sortByDateDesc` (descending on the key, ties keep input
  order) — the unique stable descending ordering, hence faithful to CPython.
* The zip archive is a list of named entries whose payload is `some` parsed
  XML root or `none` for ill-formed content; network I/O is an explicit
  oracle function; files written and console summaries are returned as data.
* Exceptions are `Except`/`Option` results: the uncaught `TypeError` that
  `strptime` raises on a non-string `FilingDate` and the
  `UnboundLocalError` in the summary code of `download_pdfs` are modelled
  explicitly.
-/

/-- A value stored in a converted record: leaf text or a nested record,
mirroring the dict values produced by `xml_member_to_dict`. -/
inductive Value where
  | leaf (s : String)
  | nested (fields : List (String × Value))

/-- A converted record: a Python dict from field name to value, as an
insertion-ordered association list with unique keys. -/
abbrev Record := List (String × Value)

/-- Python dict read `d[k]` / `d.get(k)`: first (and, for dicts, only)
binding of the key. -/
def rget (k : String) : Record → Option Value
  | [] => none
  | (k', v) :: rest => if k' = k then some v else rget k rest

/-- Python dict assignment `d[k] = v`: overwrite the existing binding in
place if the key is present, otherwise append a new binding. -/
def dictInsert (d : Record) (k : String) (v : Value) : Record :=
  if d.any (fun p => p.1 = k) then
    d.map (fun p => if p.1 = k then (k, v) else p)
  else
    d ++ [(k, v)]

mutual
/-- An XML element: tag, optional text content, ordered children. -/
inductive XmlNode where
  | node (tag : String) (text : Option String) (children : XmlForest)
/-- An ordered sequence of XML elements. -/
inductive XmlForest where
  | nil
  | cons (head : XmlNode) (tail : XmlForest)
end

/-- Tag accessor. -/
def XmlNode.tag : XmlNode → String
  | .node t _ _ => t

/-- Text accessor. -/
def XmlNode.text : XmlNode → Option String
  | .node _ tx _ => tx

/-- Children accessor. -/
def XmlNode.children : XmlNode → XmlForest
  | .node _ _ cs => cs

/-- View of a forest as a plain list of nodes. -/
def XmlForest.toList : XmlForest → List XmlNode
  | .nil => []
  | .cons c rest => c :: rest.toList

/-- Children of a node, as a list. -/
def XmlNode.childrenList (n : XmlNode) : List XmlNode :=
  n.children.toList

mutual
/-- Model of `xml_member_to_dict` (CongressionalFDScraper.py lines 44-54,
scraperDownloaderCombined.py lines 76-86): fold over the children, storing
for a childless element its text (empty string when absent) and for an
element with children the recursively converted dict, under the child's
tag, with Python-dict assignment semantics. -/
def xml_member_to_dict : XmlNode → Record
  | .node _ _ cs => xmtdChildren cs []

/-- The loop `for child in member` of `xml_member_to_dict`, with the dict
built so far as accumulator. -/
def xmtdChildren : XmlForest → Record → Record
  | .nil, d => d
  | .cons (.node t tx .nil) rest, d =>
      xmtdChildren rest (dictInsert d t (.leaf (tx.getD "")))
  | .cons (.node t tx (.cons c cs)) rest, d =>
      xmtdChildren rest
        (dictInsert d t (.nested (xml_member_to_dict (.node t tx (.cons c cs)))))
end

/-- Modelled from the spec: the per-child value of the recursive conversion
rule — "a node with no child nodes contributes its text content (or empty
string if none) as a leaf value under its own tag name; a node with child
nodes contributes a nested Record built by applying the same rule to its
children, under its own tag name". Used to compare the source's
`xml_member_to_dict` against the spec's wording. -/
def specRuleValue (c : XmlNode) : Value :=
  match c with
  | .node _ tx .nil => .leaf (tx.getD "")
  | .node t tx (.cons c cs) => .nested (xml_member_to_dict (.node t tx (.cons c cs)))

/-- The last child of the forest carrying the given tag, if any. -/
def lastWithTag (t : String) : XmlForest → Option XmlNode
  | .nil => none
  | .cons c rest =>
    match lastWithTag t rest with
    | some x => some x
    | none => if c.tag = t then some c else none

mutual
/-- Model of `root.findall(".//Member")` restricted to one node: the node
itself if its tag matches, followed by all matching descendants, in
document (pre-)order. -/
def findallFromNode (t : String) : XmlNode → List XmlNode
  | .node tag tx cs =>
      (if tag = t then [XmlNode.node tag tx cs] else []) ++ findallFromForest t cs
/-- All nodes with the given tag in a forest, in document order. -/
def findallFromForest (t : String) : XmlForest → List XmlNode
  | .nil => []
  | .cons c rest => findallFromNode t c ++ findallFromForest t rest
end

/-- Model of `root.findall(".//Member")`: every descendant of the root (the
root itself excluded) with the target tag, in document order. -/
def findallDescendants (t : String) (root : XmlNode) : List XmlNode :=
  findallFromForest t root.children

/-- Python `s.split("/")` on the character list of a string. -/
def splitSlash : List Char → List (List Char)
  | [] => [[]]
  | c :: rest =>
    if c = '/' then [] :: splitSlash rest
    else
      match splitSlash rest with
      | [] => [[c]]
      | g :: gs => (c :: g) :: gs

/-- Digits-to-number conversion for an all-digit token. -/
def digitsToNat (l : List Char) : Nat :=
  l.foldl (fun n c => n * 10 + (c.toNat - 48)) 0

/-- Gregorian leap-year rule, as used by `datetime`. -/
def isLeap (y : Nat) : Bool :=
  y % 4 = 0 && (y % 100 ≠ 0 || y % 400 = 0)

/-- Number of days in a month, as validated by the `datetime` constructor. -/
def daysInMonth (y m : Nat) : Nat :=
  if m = 2 then (if isLeap y then 29 else 28)
  else if m = 4 || m = 6 || m = 9 || m = 11 then 30
  else 31

/-- Model of `datetime.strptime(s, "%m/%d/%Y")` succeeding: month and day
are 1-2 digit tokens, year exactly 4 digits, the whole string consumed, and
the resulting (year, month, day) triple is a valid calendar date with
year ≥ 1. Returns the triple, or `none` for a `ValueError`. -/
def parse_mdy (s : String) : Option (Nat × Nat × Nat) :=
  match splitSlash s.data with
  | [ms, ds, ys] =>
    if (ms.length = 1 || ms.length = 2) && ms.all Char.isDigit
        && (ds.length = 1 || ds.length = 2) && ds.all Char.isDigit
        && ys.length = 4 && ys.all Char.isDigit then
      let m := digitsToNat ms
      let d := digitsToNat ds
      let y := digitsToNat ys
      if 1 ≤ m && m ≤ 12 && 1 ≤ d && d ≤ daysInMonth y m && 1 ≤ y then
        some (y, m, d)
      else none
    else none
  | _ => none

/-- Order-preserving encoding of a (year, month, day) triple; with
month ≤ 12 and day ≤ 31 this is injective and monotone in the
lexicographic date order. -/
def dateKey : Nat × Nat × Nat → Nat
  | (y, m, d) => y * 10000 + m * 100 + d

/-- Encoding of `datetime.min` = 1/1/0001, the sentinel `parse_filing_date`
returns when parsing fails. -/
def dateKeyMin : Nat := dateKey (1, 1, 1)

/-- Whether `parse_filing_date` runs without an uncaught exception on this
record: a nested `FilingDate` value reaches `strptime` as a dict and raises
`TypeError`, which `except (KeyError, ValueError)` does not catch. -/
def parse_filing_date_ok (r : Record) : Bool :=
  match rget "FilingDate" r with
  | some (.nested _) => false
  | _ => true

/-- Model of `parse_filing_date` (CongressionalFDScraper.py lines 63-69):
the sort key of a record — the encoded parsed `FilingDate`, or the
`datetime.min` key when the field is missing (`KeyError`) or fails to parse
(`ValueError`). Only meaningful when `parse_filing_date_ok` holds. -/
def parse_filing_date (r : Record) : Nat :=
  match rget "FilingDate" r with
  | some (.leaf s) =>
    match parse_mdy s with
    | some ymd => dateKey ymd
    | none => dateKeyMin
  | _ => dateKeyMin

/-- Whether the record's `FilingDate` is present as text and parses. -/
def parses_fd (r : Record) : Bool :=
  match rget "FilingDate" r with
  | some (.leaf s) => (parse_mdy s).isSome
  | _ => false

/-- Whether the record's `FilingDate` parses to a date strictly after
1/1/0001, i.e. its sort key is distinguishable from the failure sentinel. -/
def strict_parses_fd (r : Record) : Bool :=
  decide (dateKeyMin < parse_filing_date r)

/-- Stable descending insertion on the filing-date key: the record is
placed before the first element whose key is ≤ its own, so equal keys keep
input order, as CPython's stable `sorted(..., reverse=True)` does. -/
def insertByDateDesc (x : Record) : List Record → List Record
  | [] => [x]
  | y :: ys =>
    if parse_filing_date y ≤ parse_filing_date x then x :: y :: ys
    else y :: insertByDateDesc x ys

/-- Model of `sorted(members, key=parse_filing_date, reverse=True)`:
stable sort, descending on the key. -/
def sortByDateDesc : List Record → List Record
  | [] => []
  | x :: xs => insertByDateDesc x (sortByDateDesc xs)

/-- The whole sorting step: CPython's `sorted` first computes every key
(raising the uncaught `TypeError` if any record has a non-string
`FilingDate`, modelled as `none`), then produces the stable descending
ordering. -/
def sort_members (ms : List Record) : Option (List Record) :=
  if ms.all parse_filing_date_ok then some (sortByDateDesc ms) else none

/-- An entry of the downloaded zip archive: its name, and `some` parsed XML
root for well-formed content or `none` for content that is not well-formed
XML. -/
structure ZipEntry where
  name : String
  content : Option XmlNode

/-- Errors `convert_zip_xml_to_json` can raise: the explicit `ValueError`
carrying the observed count of `.xml` entries, the XML `ParseError`, and
the uncaught `TypeError` from sorting on a non-string `FilingDate`. -/
inductive ConvError where
  | malformedArchive (found : Nat)
  | parseError
  | typeError

/-- Case-insensitive check of `f.lower().endswith(".xml")`. -/
def endsWithXml (name : String) : Bool :=
  (name.data.map Char.toLower).reverse.take 4 = ['l', 'm', 'x', '.']

/-- The sub-list of archive entries whose name ends case-insensitively in
`.xml`, in archive order (`xml_files` in the source). -/
def xml_entries (archive : List ZipEntry) : List ZipEntry :=
  archive.filter (fun e => endsWithXml e.name)

/-- Model of `convert_zip_xml_to_json` (CongressionalFDScraper.py lines
26-81, scraperDownloaderCombined.py lines 58-113): filter the entry names
for `.xml`, require exactly one, parse it, convert every descendant
`Member` node to a record, and sort the records by filing date descending.
The returned list is the content of the serialized JSON array. -/
def convert_zip_xml_to_json (archive : List ZipEntry) : Except ConvError (List Record) :=
  match xml_entries archive with
  | [e] =>
    match e.content with
    | none => .error .parseError
    | some root =>
      match sort_members ((findallDescendants "Member" root).map xml_member_to_dict) with
      | some sorted => .ok sorted
      | none => .error .typeError
  | l => .error (.malformedArchive l.length)

/-- The record's `doc_id` value, as read by
`disclosure.get("DocID", "")` in `download_pdfs`. -/
def doc_id_val (d : Record) : Value :=
  (rget "DocID" d).getD (.leaf "")

/-- Python truthiness of a `doc_id` value: a non-empty string (or, were the
field a nested dict, a non-empty dict) is truthy; `if not doc_id: continue`
skips the falsy ones. -/
def truthy : Value → Bool
  | .leaf s => !decide (s = "")
  | .nested r => !r.isEmpty

/-- Whether `download_pdfs` attempts the record at all: its `DocID` is
present and truthy. -/
def eligible (d : Record) : Bool :=
  truthy (doc_id_val d)

/-- Model of the per-record loop of `download_pdfs`
(scraperDownloaderCombined.py lines 141-168): the network is an oracle from
the document identifier to `none` (2xx success) or `some cause` (any
`requests.RequestException`: transport failure or, via
`raise_for_status()`, a non-2xx status). Returns
(`successful_downloads`, `failed_downloads`), each in input order; a failed
record is a copy of the original with a `download_error` field holding the
stringified cause. -/
def download_pdfs (fetch : Value → Option String) : List Record → List Record × List Record
  | [] => ([], [])
  | d :: rest =>
    if eligible d then
      match fetch (doc_id_val d) with
      | none =>
        (d :: (download_pdfs fetch rest).1, (download_pdfs fetch rest).2)
      | some e =>
        ((download_pdfs fetch rest).1,
          dictInsert d "download_error" (.leaf e) :: (download_pdfs fetch rest).2)
    else download_pdfs fetch rest

/-- The `~/Downloads/CongressionalFDs` directory derived from the home
directory (`os.path.expanduser("~")`). -/
def downloads_dir (home : String) : String :=
  home ++ "/Downloads/CongressionalFDs"

/-- A Python exception that escapes a function uncaught. -/
inductive PyError where
  | unboundLocal (name : String)

/-- Model of the manifest-and-summary tail of `download_pdfs`
(scraperDownloaderCombined.py lines 170-184) run after the loop: returns
the console lines printed, and `some` uncaught exception if one is raised.
`failed_download_path` is assigned only inside `if failed_downloads:`, so
when no download failed the final summary line raises `UnboundLocalError`
after the three count lines have been printed. -/
def download_pdfs_summary (fetch : Value → Option String) (home : String)
    (disclosures : List Record) : List String × Option PyError :=
  let succeeded := (download_pdfs fetch disclosures).1
  let failed := (download_pdfs fetch disclosures).2
  let countLines :=
    ["Download Summary:",
     "Total Documents: " ++ toString disclosures.length,
     "Successful Downloads: " ++ toString succeeded.length,
     "Failed Downloads: " ++ toString failed.length]
  if failed.isEmpty then
    (countLines, some (.unboundLocal "failed_download_path"))
  else
    (countLines ++
      ["Failed downloads logged to " ++ (downloads_dir home ++ "/failed_files.json")],
     none)

/-- The archive URL built from the year
(`.../financial-pdfs/{year}FD.zip`). -/
def fd_zip_url (year : Nat) : String :=
  "https://disclosures-clerk.house.gov/public_disc/financial-pdfs/"
    ++ toString year ++ "FD.zip"

/-- The on-disk location the archive is written to, derived from the year
key. -/
def zip_output_path (home : String) (year : Nat) : String :=
  downloads_dir home ++ "/" ++ toString year ++ "FD.zip"

/-- Model of `download_zip_file` (scraperDownloaderCombined.py lines 8-42):
the network is an oracle from URL to body or failure cause (transport
error, or non-2xx via `raise_for_status()`). Returns the list of files
written (path, body) and the function's return value: `some path` on
success, `none` (Python `None`) after a caught `requests.RequestException`.
The model is a total function: no network error escapes. -/
def download_zip_file (net : String → Except String String) (home : String)
    (year : Nat) : List (String × String) × Option String :=
  match net (fd_zip_url year) with
  | .ok body => ([(zip_output_path home year, body)], some (zip_output_path home year))
  | .error _ => ([], none)

/-- Formalization of claim C1 on one record list: adjacent records that
both parse are non-increasing by date, and a record whose `FilingDate`
parses never appears after one whose `FilingDate` is missing or
unparsable. -/
def datedBeforeUndated (l : List Record) : Prop :=
  l.Chain' (fun a b =>
      (!(parses_fd a) || !(parses_fd b)
        || decide (parse_filing_date b ≤ parse_filing_date a)) = true)
    ∧ l.Pairwise (fun a b => (!(parses_fd b) || parses_fd a) = true)

/-- A `Member` node with no `FilingDate`. -/
def exMemberNoDate : XmlNode :=
  .node "Member" none (.cons (.node "Last" (some "Doe") .nil) .nil)

/-- A `Member` node whose `FilingDate` parses to `datetime.min`. -/
def exMemberMinDate : XmlNode :=
  .node "Member" none (.cons (.node "FilingDate" (some "1/1/0001") .nil) .nil)

/-- Root holding the two members above, dateless one first. -/
def exRootMin : XmlNode :=
  .node "FinancialDisclosures" none (.cons exMemberNoDate (.cons exMemberMinDate .nil))

/-- A single-entry archive exercising the `datetime.min` collision. -/
def exArchiveMin : List ZipEntry :=
  [⟨"2024FD.xml", some exRootMin⟩]

/-- The record converted from `exMemberNoDate`. -/
def exRecNoDate : Record := [("Last", .leaf "Doe")]

/-- The record converted from `exMemberMinDate`. -/
def exRecMinDate : Record := [("FilingDate", .leaf "1/1/0001")]

/-- An archive with two members carrying ordinary distinct dates, oldest
first, plus a dateless member in front. -/
def exArchiveDates : List ZipEntry :=
  [⟨"2024FD.xml",
    some (.node "FinancialDisclosures" none
      (.cons (.node "Member" none
        (.cons (.node "FilingDate" (some "1/15/2024") .nil) .nil))
      (.cons (.node "Member" none
        (.cons (.node "FilingDate" (some "3/1/2024") .nil) .nil))
      .nil)))⟩]

/-- An archive whose names contain two `.xml` entries (case-insensitively). -/
def exArchiveTwoXml : List ZipEntry :=
  [⟨"2024FD.xml", none⟩, ⟨"EXTRA.XML", none⟩]

/-- A `Member` node with one unique leaf child and one unique nested child. -/
def exMemberMixed : XmlNode :=
  .node "Member" none
    (.cons (.node "First" (some "Jane") .nil)
    (.cons (.node "Office" none (.cons (.node "StateDst" (some "CA12") .nil) .nil))
    .nil))

/-- A `Member` node with two children sharing the tag `FilingDate`. -/
def exMemberDupTags : XmlNode :=
  .node "Member" none
    (.cons (.node "FilingDate" (some "3/1/2024") .nil)
    (.cons (.node "FilingDate" (some "1/15/2024") .nil)
    .nil))

/-- A record with a truthy `DocID` whose fetch will succeed. -/
def recDocOk : Record := [("DocID", .leaf "20011234")]

/-- A record with a truthy `DocID` whose fetch will fail. -/
def recDocBad : Record := [("DocID", .leaf "20019737")]

/-- A record with no `DocID` field at all. -/
def recNoDoc : Record := [("Last", .leaf "Doe")]

/-- A fetch oracle failing exactly on `recDocBad`'s identifier with an HTTP
404 cause. -/
def fetchFails404 : Value → Option String := fun v =>
  match v with
  | .leaf s => if s = "20019737" then some "404 Client Error: Not Found" else none
  | .nested _ => none

/-- Formalization of C9's "returns an explicit failure value carrying the
underlying cause": some reading of the function's result recovers the
cause of any failed run. -/
def C9CarriesCause : Prop :=
  ∃ recover : List (String × String) × Option String → String,
    ∀ (net : String → Except String String) (home : String) (year : Nat) (c : String),
      net (fd_zip_url year) = .error c →
      recover (download_zip_file net home year) = c

/-- Key-uniqueness invariant of a record, as for a Python dict. -/
def keysNodup (d : Record) : Prop :=
  (d.map Prod.fst).Nodup

@[simp] theorem rget_nil (k : String) : rget k ([] : Record) = none := rfl

@[simp] theorem rget_cons (k k' : String) (v : Value) (rest : Record) :
    rget k ((k', v) :: rest) = if k' = k then some v else rget k rest := rfl

theorem rget_map_self (d : Record) (k : String) (v : Value) (h : ∃ p ∈ d, p.1 = k) :
    rget k (d.map (fun p => if p.1 = k then (k, v) else p)) = some v := by
  induction d with
  | nil => simp at h
  | cons p rest ih =>
    obtain ⟨pk, pv⟩ := p
    by_cases hp : pk = k
    · simp [hp]
    · have hrest : ∃ q ∈ rest, q.1 = k := by
        rcases h with ⟨q, hq, hqk⟩
        rcases List.mem_cons.mp hq with hq | hq
        · rw [hq] at hqk
          exact absurd hqk hp
        · exact ⟨q, hq, hqk⟩
      simpa [hp] using ih hrest

theorem rget_append_self (d : Record) (k : String) (v : Value)
    (h : ∀ p ∈ d, p.1 ≠ k) :
    rget k (d ++ [(k, v)]) = some v := by
  induction d with
  | nil => simp
  | cons p rest ih =>
    obtain ⟨pk, pv⟩ := p
    have hp : pk ≠ k := h (pk, pv) (List.mem_cons_self _ _)
    have hrest : ∀ p ∈ rest, p.1 ≠ k := fun p hpm => h p (List.mem_cons_of_mem _ hpm)
    simpa [hp] using ih hrest

theorem rget_dictInsert_self (d : Record) (k : String) (v : Value) :
    rget k (dictInsert d k v) = some v := by
  unfold dictInsert
  split
  · next hany =>
    apply rget_map_self
    simpa using List.any_eq_true.mp hany
  · next hany =>
    apply rget_append_self
    intro p hp
    have := List.any_eq_false.mp (Bool.not_eq_true _ ▸ hany) p hp
    simpa using this

theorem rget_map_ne (d : Record) (k t : String) (v : Value) (h : t ≠ k) :
    rget t (d.map (fun p => if p.1 = k then (k, v) else p)) = rget t d := by
  induction d with
  | nil => simp
  | cons p rest ih =>
    obtain ⟨pk, pv⟩ := p
    by_cases hp : pk = k
    · have hkt : ¬ (k = t) := fun hkt => h (hkt.symm)
      have hpt : ¬ (pk = t) := fun hpt => h ((hp ▸ hpt : k = t).symm)
      simp [hp, hkt, hpt, ih]
    · simp [hp, ih]

theorem rget_append_ne (d : Record) (k t : String) (v : Value) (h : t ≠ k) :
    rget t (d ++ [(k, v)]) = rget t d := by
  induction d with
  | nil =>
    have hkt : ¬ (k = t) := fun hkt => h hkt.symm
    simp [hkt]
  | cons p rest ih =>
    obtain ⟨pk, pv⟩ := p
    by_cases hp : pk = t <;> simp [hp, ih]

theorem rget_dictInsert_ne (d : Record) (k t : String) (v : Value) (h : t ≠ k) :
    rget t (dictInsert d k v) = rget t d := by
  unfold dictInsert
  split
  · exact rget_map_ne d k t v h
  · exact rget_append_ne d k t v h

theorem keysNodup_dictInsert (d : Record) (k : String) (v : Value)
    (h : keysNodup d) : keysNodup (dictInsert d k v) := by
  unfold dictInsert
  split
  · next hany =>
    have hkeys : (d.map (fun p => if p.1 = k then (k, v) else p)).map Prod.fst
        = d.map Prod.fst := by
      rw [List.map_map]
      apply List.map_congr_left
      intro p _
      by_cases hp : p.1 = k <;> simp [hp]
    unfold keysNodup
    rw [hkeys]
    exact h
  · next hany =>
    have hnot : ∀ p ∈ d, ¬ (p.1 = k) := by
      intro p hp
      have := List.any_eq_false.mp (Bool.not_eq_true _ ▸ hany) p hp
      simpa using this
    unfold keysNodup at h ⊢
    rw [List.map_append]
    refine List.Nodup.append h (List.nodup_singleton _) ?_
    intro x hx hxk
    rcases List.mem_map.mp hx with ⟨p, hp, hpx⟩
    rcases List.mem_singleton.mp hxk with rfl
    exact hnot p hp hpx

theorem rget_xmtdChildren (t : String) :
    ∀ (cs : XmlForest) (d : Record),
      rget t (xmtdChildren cs d)
        = match lastWithTag t cs with
          | some c => some (specRuleValue c)
          | none => rget t d
  | .nil, d => rfl
  | .cons (.node tg tx .nil) rest, d => by
    have ih := rget_xmtdChildren t rest (dictInsert d tg (.leaf (tx.getD "")))
    show rget t (xmtdChildren rest (dictInsert d tg (.leaf (tx.getD "")))) = _
    rw [ih]
    cases hl : lastWithTag t rest with
    | some x => simp [lastWithTag, hl]
    | none =>
      by_cases htg : tg = t
      · subst htg
        simp [lastWithTag, hl, XmlNode.tag, specRuleValue, rget_dictInsert_self]
      · have hne : t ≠ tg := fun he => htg he.symm
        simp [lastWithTag, hl, XmlNode.tag, htg, rget_dictInsert_ne _ _ _ _ hne]
  | .cons (.node tg tx (.cons c cs)) rest, d => by
    have ih := rget_xmtdChildren t rest
      (dictInsert d tg (.nested (xml_member_to_dict (.node tg tx (.cons c cs)))))
    show rget t (xmtdChildren rest
      (dictInsert d tg (.nested (xml_member_to_dict (.node tg tx (.cons c cs)))))) = _
    rw [ih]
    cases hl : lastWithTag t rest with
    | some x => simp [lastWithTag, hl]
    | none =>
      by_cases htg : tg = t
      · subst htg
        simp [lastWithTag, hl, XmlNode.tag, specRuleValue, rget_dictInsert_self]
      · have hne : t ≠ tg := fun he => htg he.symm
        simp [lastWithTag, hl, XmlNode.tag, htg, rget_dictInsert_ne _ _ _ _ hne]

theorem keysNodup_xmtdChildren :
    ∀ (cs : XmlForest) (d : Record), keysNodup d → keysNodup (xmtdChildren cs d)
  | .nil, _, h => h
  | .cons (.node _ _ .nil) rest, _, h =>
    keysNodup_xmtdChildren rest _ (keysNodup_dictInsert _ _ _ h)
  | .cons (.node _ _ (.cons _ _)) rest, _, h =>
    keysNodup_xmtdChildren rest _ (keysNodup_dictInsert _ _ _ h)

/-- The lookup behaviour of the converted record: the value under a tag is
the spec's rule applied to the last child carrying that tag, and tags not
present among the children are absent. -/
theorem rget_xml_member_to_dict (t : String) (n : XmlNode) :
    rget t (xml_member_to_dict n)
      = match lastWithTag t n.children with
        | some c => some (specRuleValue c)
        | none => none := by
  obtain ⟨tg, tx, cs⟩ := n
  show rget t (xmtdChildren cs []) = _
  rw [rget_xmtdChildren t cs []]
  rfl

theorem keysNodup_xml_member_to_dict (n : XmlNode) :
    keysNodup (xml_member_to_dict n) := by
  obtain ⟨tg, tx, cs⟩ := n
  exact keysNodup_xmtdChildren cs [] (by simp [keysNodup])

theorem lastWithTag_mem_tag (t : String) :
    ∀ (cs : XmlForest) (x : XmlNode), lastWithTag t cs = some x →
      x ∈ cs.toList ∧ x.tag = t
  | .nil, x, h => by simp [lastWithTag] at h
  | .cons c rest, x, h => by
    unfold lastWithTag at h
    cases hl : lastWithTag t rest with
    | some y =>
      rw [hl] at h
      have hyx : y = x := by simpa using h
      subst hyx
      obtain ⟨hm, ht⟩ := lastWithTag_mem_tag t rest y hl
      exact ⟨by simp [XmlForest.toList, hm], ht⟩
    | none =>
      rw [hl] at h
      by_cases htg : c.tag = t
      · simp [htg] at h
        rw [← h]
        exact ⟨by simp [XmlForest.toList], htg⟩
      · simp [htg] at h

theorem lastWithTag_eq_none (t : String) :
    ∀ (cs : XmlForest), lastWithTag t cs = none ↔ ∀ c ∈ cs.toList, c.tag ≠ t
  | .nil => by simp [lastWithTag, XmlForest.toList]
  | .cons c rest => by
    unfold lastWithTag
    cases hl : lastWithTag t rest with
    | some y =>
      simp only [XmlForest.toList]
      constructor
      · intro h; exact absurd h (by simp)
      · intro h
        obtain ⟨hm, ht⟩ := lastWithTag_mem_tag t rest y hl
        exact absurd ht (h y (by simp [hm]))
    | none =>
      have hrest := (lastWithTag_eq_none t rest).mp hl
      simp only [XmlForest.toList]
      by_cases htg : c.tag = t
      · simp [htg]
      · simp only [htg, if_neg htg]
        constructor
        · intro _ x hx
          rcases List.mem_cons.mp hx with rfl | hx
          · exact htg
          · exact hrest x hx
        · intro _; rfl

theorem lastWithTag_unique (t : String) (cs : XmlForest) (c : XmlNode)
    (hm : c ∈ cs.toList) (ht : c.tag = t)
    (huniq : ∀ c' ∈ cs.toList, c'.tag = t → c' = c) :
    lastWithTag t cs = some c := by
  cases hl : lastWithTag t cs with
  | some x =>
    obtain ⟨hxm, hxt⟩ := lastWithTag_mem_tag t cs x hl
    rw [huniq x hxm hxt]
  | none =>
    exact absurd ht ((lastWithTag_eq_none t cs).mp hl c hm)

theorem mem_insertByDateDesc (x a : Record) :
    ∀ l : List Record, a ∈ insertByDateDesc x l ↔ a = x ∨ a ∈ l
  | [] => by simp [insertByDateDesc]
  | y :: ys => by
    unfold insertByDateDesc
    split
    · simp
    · rw [List.mem_cons, mem_insertByDateDesc x a ys, List.mem_cons]
      tauto

theorem pairwise_insertByDateDesc (x : Record) :
    ∀ l : List Record,
      l.Pairwise (fun a b => parse_filing_date b ≤ parse_filing_date a) →
      (insertByDateDesc x l).Pairwise
        (fun a b => parse_filing_date b ≤ parse_filing_date a)
  | [], _ => by simp [insertByDateDesc]
  | y :: ys, h => by
    rw [List.pairwise_cons] at h
    obtain ⟨hy, hys⟩ := h
    unfold insertByDateDesc
    split
    · next hle =>
      rw [List.pairwise_cons]
      refine ⟨?_, List.pairwise_cons.mpr ⟨hy, hys⟩⟩
      intro b hb
      rcases List.mem_cons.mp hb with rfl | hb
      · exact hle
      · exact le_trans (hy b hb) hle
    · next hgt =>
      rw [List.pairwise_cons]
      constructor
      · intro b hb
        rcases (mem_insertByDateDesc x b ys).mp hb with rfl | hb
        · exact le_of_lt (lt_of_not_ge hgt)
        · exact hy b hb
      · exact pairwise_insertByDateDesc x ys hys

/-- The result of the stable descending sort is non-increasing on the
filing-date key. -/
theorem pairwise_sortByDateDesc :
    ∀ l : List Record,
      (sortByDateDesc l).Pairwise
        (fun a b => parse_filing_date b ≤ parse_filing_date a)
  | [] => by simp [sortByDateDesc]
  | x :: xs => pairwise_insertByDateDesc x _ (pairwise_sortByDateDesc xs)

/-- Sorting a list that is already non-increasing on the key leaves it
unchanged. -/
theorem sortByDateDesc_of_pairwise :
    ∀ l : List Record,
      l.Pairwise (fun a b => parse_filing_date b ≤ parse_filing_date a) →
      sortByDateDesc l = l
  | [], _ => rfl
  | x :: xs, h => by
    rw [List.pairwise_cons] at h
    obtain ⟨hx, hxs⟩ := h
    show insertByDateDesc x (sortByDateDesc xs) = x :: xs
    rw [sortByDateDesc_of_pairwise xs hxs]
    cases xs with
    | nil => rfl
    | cons y ys =>
      unfold insertByDateDesc
      rw [if_pos (hx y (List.mem_cons_self _ _))]

/-- Extraction lemma: a successful `convert_zip_xml_to_json` run returns
exactly the stable descending sort of the converted member records, all of
which have a sortable (string or absent) `FilingDate`. -/
theorem convert_ok_sort (archive : List ZipEntry) (l : List Record)
    (h : convert_zip_xml_to_json archive = .ok l) :
    ∃ ms : List Record, ms.all parse_filing_date_ok = true ∧ l = sortByDateDesc ms := by
  unfold convert_zip_xml_to_json at h
  split at h
  · next e _ =>
    cases hc : e.content with
    | none => rw [hc] at h; exact absurd h (by simp)
    | some root =>
      rw [hc] at h
      dsimp only at h
      set ms := (findallDescendants "Member" root).map xml_member_to_dict with hms
      cases hs : sort_members ms with
      | none => rw [hs] at h; exact absurd h (by simp)
      | some s =>
        rw [hs] at h
        have hls : l = s := by
          have := h
          simp at this
          exact this.symm
        unfold sort_members at hs
        split at hs
        · next hall =>
          refine ⟨ms, hall, ?_⟩
          rw [hls]
          simpa using hs.symm
        · exact absurd hs (by simp)
  · exact absurd h (by simp)

theorem doc_id_val_dictInsert_err (d : Record) (v : Value) :
    doc_id_val (dictInsert d "download_error" v) = doc_id_val d := by
  unfold doc_id_val
  rw [rget_dictInsert_ne d "download_error" "DocID" v (by decide)]

/-- Membership in `successful_downloads`: exactly the input records with a
truthy `DocID` whose fetch succeeded. -/
theorem mem_download_pdfs_succ (fetch : Value → Option String) (r : Record) :
    ∀ ds : List Record,
      r ∈ (download_pdfs fetch ds).1
        ↔ r ∈ ds ∧ eligible r = true ∧ fetch (doc_id_val r) = none
  | [] => by simp [download_pdfs]
  | d :: rest => by
    unfold download_pdfs
    by_cases he : eligible d
    · rw [if_pos he]
      cases hf : fetch (doc_id_val d) with
      | none =>
        simp only
        rw [List.mem_cons]
        constructor
        · intro h
          rcases h with rfl | h
          · exact ⟨List.mem_cons_self _ _, he, hf⟩
          · obtain ⟨hm, h1, h2⟩ := (mem_download_pdfs_succ fetch r rest).mp h
            exact ⟨List.mem_cons_of_mem _ hm, h1, h2⟩
        · rintro ⟨hm, h1, h2⟩
          rcases List.mem_cons.mp hm with rfl | hm
          · exact Or.inl rfl
          · exact Or.inr ((mem_download_pdfs_succ fetch r rest).mpr ⟨hm, h1, h2⟩)
      | some e =>
        simp only
        rw [mem_download_pdfs_succ fetch r rest]
        constructor
        · rintro ⟨hm, h1, h2⟩
          exact ⟨List.mem_cons_of_mem _ hm, h1, h2⟩
        · rintro ⟨hm, h1, h2⟩
          rcases List.mem_cons.mp hm with rfl | hm
          · rw [hf] at h2; exact absurd h2 (by simp)
          · exact ⟨hm, h1, h2⟩
    · rw [if_neg he]
      rw [mem_download_pdfs_succ fetch r rest]
      constructor
      · rintro ⟨hm, h1, h2⟩
        exact ⟨List.mem_cons_of_mem _ hm, h1, h2⟩
      · rintro ⟨hm, h1, h2⟩
        rcases List.mem_cons.mp hm with rfl | hm
        · exact absurd h1 he
        · exact ⟨hm, h1, h2⟩

/-- Membership in `failed_downloads`: exactly the augmented copies of input
records with a truthy `DocID` whose fetch failed. -/
theorem mem_download_pdfs_failed (fetch : Value → Option String) (r : Record) :
    ∀ ds : List Record,
      r ∈ (download_pdfs fetch ds).2
        ↔ ∃ d ∈ ds, eligible d = true
            ∧ ∃ e, fetch (doc_id_val d) = some e
                ∧ r = dictInsert d "download_error" (.leaf e)
  | [] => by simp [download_pdfs]
  | d :: rest => by
    unfold download_pdfs
    by_cases he : eligible d
    · rw [if_pos he]
      cases hf : fetch (doc_id_val d) with
      | none =>
        simp only
        rw [mem_download_pdfs_failed fetch r rest]
        constructor
        · rintro ⟨d', hm, h1, e, h2, h3⟩
          exact ⟨d', List.mem_cons_of_mem _ hm, h1, e, h2, h3⟩
        · rintro ⟨d', hm, h1, e, h2, h3⟩
          rcases List.mem_cons.mp hm with rfl | hm
          · rw [hf] at h2; exact absurd h2 (by simp)
          · exact ⟨d', hm, h1, e, h2, h3⟩
      | some e0 =>
        simp only
        rw [List.mem_cons, mem_download_pdfs_failed fetch r rest]
        constructor
        · intro h
          rcases h with rfl | ⟨d', hm, h1, e, h2, h3⟩
          · exact ⟨d, List.mem_cons_self _ _, he, e0, hf, rfl⟩
          · exact ⟨d', List.mem_cons_of_mem _ hm, h1, e, h2, h3⟩
        · rintro ⟨d', hm, h1, e, h2, h3⟩
          rcases List.mem_cons.mp hm with rfl | hm
          · rw [hf] at h2
            have he0 : e = e0 := by simpa using h2.symm
            rw [he0] at h3
            exact Or.inl h3
          · exact Or.inr ⟨d', hm, h1, e, h2, h3⟩
    · rw [if_neg he]
      rw [mem_download_pdfs_failed fetch r rest]
      constructor
      · rintro ⟨d', hm, h1, e, h2, h3⟩
        exact ⟨d', List.mem_cons_of_mem _ hm, h1, e, h2, h3⟩
      · rintro ⟨d', hm, h1, e, h2, h3⟩
        rcases List.mem_cons.mp hm with rfl | hm
        · exact absurd h1 he
        · exact ⟨d', hm, h1, e, h2, h3⟩

/-- Every input record with a truthy `DocID` accounts for exactly one
element of exactly one of the two output lists. -/
theorem download_pdfs_count (fetch : Value → Option String) :
    ∀ ds : List Record,
      (download_pdfs fetch ds).1.length + (download_pdfs fetch ds).2.length
        = (ds.filter eligible).length
  | [] => rfl
  | d :: rest => by
    unfold download_pdfs
    by_cases he : eligible d
    · rw [if_pos he]
      cases hf : fetch (doc_id_val d) with
      | none =>
        simp only [List.length_cons, List.filter_cons, he]
        rw [Nat.succ_add, download_pdfs_count fetch rest]
        simp
      | some e =>
        simp only [List.length_cons, List.filter_cons, he]
        rw [Nat.add_succ, download_pdfs_count fetch rest]
        simp
    · rw [if_neg he]
      simp only [List.filter_cons]
      rw [if_neg (by simpa using he)]
      exact download_pdfs_count fetch rest

/-- A record with an absent or falsy `DocID` is invisible to the loop. -/
theorem download_pdfs_skip (fetch : Value → Option String) (d : Record)
    (hd : eligible d = false) :
    ∀ (ds₁ ds₂ : List Record),
      download_pdfs fetch (ds₁ ++ d :: ds₂) = download_pdfs fetch (ds₁ ++ ds₂)
  | [], ds₂ => by
    show download_pdfs fetch (d :: ds₂) = download_pdfs fetch ds₂
    unfold download_pdfs
    rw [if_neg (by simp [hd])]
    cases ds₂ <;> rfl
  | a :: ds₁, ds₂ => by
    show download_pdfs fetch (a :: (ds₁ ++ d :: ds₂)) = download_pdfs fetch (a :: (ds₁ ++ ds₂))
    unfold download_pdfs
    rw [download_pdfs_skip fetch d hd ds₁ ds₂]

theorem strict_parses_fd_of_le (a b : Record)
    (hab : parse_filing_date b ≤ parse_filing_date a)
    (hb : strict_parses_fd b = true) : strict_parses_fd a = true := by
  unfold strict_parses_fd at hb ⊢
  exact decide_eq_true (lt_of_lt_of_le (of_decide_eq_true hb) hab)

theorem parses_fd_of_strict (r : Record) (h : strict_parses_fd r = true) :
    parses_fd r = true := by
  unfold strict_parses_fd at h
  have hlt := of_decide_eq_true h
  unfold parse_filing_date at hlt
  unfold parses_fd
  cases hr : rget "FilingDate" r with
  | none =>
    rw [hr] at hlt
    dsimp only at hlt
    exact absurd hlt (lt_irrefl _)
  | some v =>
    cases v with
    | leaf s =>
      rw [hr] at hlt
      dsimp only at hlt
      cases hm : parse_mdy s with
      | none =>
        rw [hm] at hlt
        dsimp only at hlt
        exact absurd hlt (lt_irrefl _)
      | some ymd => simp [hm]
    | nested f =>
      rw [hr] at hlt
      dsimp only at hlt
      exact absurd hlt (lt_irrefl _)

/-- C7: each record node is converted by the recursive rule — a childless
child contributes its text (empty string when absent) as a leaf under its
tag, a child with children contributes the recursively converted record
under its tag (`specRuleValue` is the spec's wording of the rule); when a
tag names no child it is absent from the record. The per-child clause is
stated for children whose tag is not shared with a distinct sibling, the
regime in which "every child contributes" is well-defined (the duplicate
case is settled separately, where the last sibling wins). -/
theorem C7_conversion_rule (n : XmlNode) :
    (∀ c ∈ n.childrenList, (∀ c' ∈ n.childrenList, c'.tag = c.tag → c' = c) →
        rget c.tag (xml_member_to_dict n) = some (specRuleValue c))
    ∧ (∀ t : String, (∀ c' ∈ n.childrenList, c'.tag ≠ t) →
        rget t (xml_member_to_dict n) = none) := by
  constructor
  · intro c hc huniq
    rw [rget_xml_member_to_dict]
    rw [lastWithTag_unique c.tag n.children c hc rfl huniq]
  · intro t hnone
    rw [rget_xml_member_to_dict]
    rw [(lastWithTag_eq_none t n.children).mpr hnone]

/-- Witness for C7 at a concrete member node: the unique leaf child
`First` contributes its text, the unique nested child `Office` contributes
a nested record, and an absent tag yields no field. -/
theorem C7_conversion_rule_witness :
    rget "First" (xml_member_to_dict exMemberMixed) = some (.leaf "Jane")
    ∧ rget "Office" (xml_member_to_dict exMemberMixed)
        = some (.nested [("StateDst", .leaf "CA12")])
    ∧ rget "FilingDate" (xml_member_to_dict exMemberMixed) = none := by
  refine ⟨?_, ?_, ?_⟩
  · exact (C7_conversion_rule exMemberMixed).1 (.node "First" (some "Jane") .nil)
      (List.Mem.head _)
      (by
        intro c' hc' ht
        rcases List.mem_cons.mp hc' with rfl | hc'
        · rfl
        · rcases List.mem_cons.mp hc' with rfl | hc'
          · exact absurd ht (by decide)
          · simp [XmlForest.toList] at hc')
  · exact (C7_conversion_rule exMemberMixed).1
      (.node "Office" none (.cons (.node "StateDst" (some "CA12") .nil) .nil))
      (List.Mem.tail _ (List.Mem.head _))
      (by
        intro c' hc' ht
        rcases List.mem_cons.mp hc' with rfl | hc'
        · exact absurd ht (by decide)
        · rcases List.mem_cons.mp hc' with rfl | hc'
          · rfl
          · simp [XmlForest.toList] at hc')
  · exact (C7_conversion_rule exMemberMixed).2 "FilingDate"
      (by
        intro c' hc'
        rcases List.mem_cons.mp hc' with rfl | hc'
        · decide
        · rcases List.mem_cons.mp hc' with rfl | hc'
          · decide
          · simp [XmlForest.toList] at hc')

/-- C10: when several children share a tag, the converted record binds that
tag to the value derived from the last such child (Python dict assignment
overwrites), and the record holds a single binding per tag, so the earlier
siblings' values are not retained anywhere. -/
theorem C10_last_duplicate_wins (n : XmlNode) (t : String) (c : XmlNode)
    (h : lastWithTag t n.children = some c) :
    rget t (xml_member_to_dict n) = some (specRuleValue c)
    ∧ keysNodup (xml_member_to_dict n) := by
  refine ⟨?_, keysNodup_xml_member_to_dict n⟩
  rw [rget_xml_member_to_dict, h]

/-- Witness for C10 at a node with two `FilingDate` children: the second
child's text is the retained value. -/
theorem C10_last_duplicate_wins_witness :
    rget "FilingDate" (xml_member_to_dict exMemberDupTags)
      = some (.leaf "1/15/2024") :=
  (C10_last_duplicate_wins exMemberDupTags "FilingDate"
    (.node "FilingDate" (some "1/15/2024") .nil) rfl).1

/-- C8: `convert_zip_xml_to_json` is a function of the archive alone —
two runs on the same archive yield field-for-field identical record lists
— and the produced RecordSet is a fixed point of the date sort, so the
ordering it carries is canonical and reproducible. -/
theorem C8_normalize_deterministic :
    (∀ (archive : List ZipEntry) (r₁ r₂ : List Record),
        convert_zip_xml_to_json archive = .ok r₁ →
        convert_zip_xml_to_json archive = .ok r₂ → r₁ = r₂)
    ∧ ∀ (archive : List ZipEntry) (l : List Record),
        convert_zip_xml_to_json archive = .ok l → sortByDateDesc l = l := by
  constructor
  · intro a r₁ r₂ h₁ h₂
    rw [h₁] at h₂
    exact Except.ok.inj h₂
  · intro a l h
    obtain ⟨ms, hall, hl⟩ := convert_ok_sort a l h
    rw [hl]
    exact sortByDateDesc_of_pairwise _ (pairwise_sortByDateDesc ms)

/-- Witness for C8 at a concrete archive. -/
theorem C8_normalize_deterministic_witness :
    ([exRecNoDate, exRecMinDate] : List Record) = [exRecNoDate, exRecMinDate] :=
  C8_normalize_deterministic.1 exArchiveMin [exRecNoDate, exRecMinDate]
    [exRecNoDate, exRecMinDate] rfl rfl

/-- C1 as stated is false: `strptime` accepts `1/1/0001`, whose value
`datetime.min` is exactly the sentinel used for missing/unparsable dates,
and the stable sort leaves an earlier unparsable record in front of a
later record that parses to that minimal date. At this concrete archive
the produced RecordSet has the dateless record first and the record whose
`FilingDate` parses successfully second, violating the claim's ordering
predicate `datedBeforeUndated`. -/
theorem C1_counterexample :
    convert_zip_xml_to_json exArchiveMin = .ok [exRecNoDate, exRecMinDate]
    ∧ parses_fd exRecMinDate = true
    ∧ parses_fd exRecNoDate = false
    ∧ ¬ datedBeforeUndated [exRecNoDate, exRecMinDate] := by
  refine ⟨rfl, rfl, rfl, ?_⟩
  rintro ⟨-, hp⟩
  rw [List.pairwise_cons] at hp
  have h := hp.1 exRecMinDate (List.mem_cons_self _ _)
  exact absurd h (by decide)

/-- C1 amended: every RecordSet produced by `convert_zip_xml_to_json` is
non-increasing on the filing-date key; in particular adjacent records that
both parse are in non-increasing date order, and a record with a missing
or unparsable `FilingDate` never precedes a record whose `FilingDate`
parses to a date strictly after 1/1/0001 — only records parsing exactly to
the minimal date 1/1/0001 are indistinguishable from unparsable ones. -/
theorem C1_amended_ordering (archive : List ZipEntry) (l : List Record)
    (h : convert_zip_xml_to_json archive = .ok l) :
    l.Pairwise (fun a b => parse_filing_date b ≤ parse_filing_date a)
    ∧ l.Chain' (fun a b => parses_fd a = true → parses_fd b = true →
        parse_filing_date b ≤ parse_filing_date a)
    ∧ l.Pairwise (fun a b => strict_parses_fd b = true → strict_parses_fd a = true)
    ∧ l.Pairwise (fun a b => strict_parses_fd b = true → parses_fd a = true) := by
  obtain ⟨ms, hall, hl⟩ := convert_ok_sort archive l h
  subst hl
  have hp := pairwise_sortByDateDesc ms
  refine ⟨hp, ?_, ?_, ?_⟩
  · exact (hp.imp (fun hab _ _ => hab)).chain'
  · exact hp.imp (fun hab hb => strict_parses_fd_of_le _ _ hab hb)
  · exact hp.imp (fun hab hb =>
      parses_fd_of_strict _ (strict_parses_fd_of_le _ _ hab hb))

/-- Witness for the amended C1 at an archive holding members dated
1/15/2024 and 3/1/2024 (input in ascending order) plus the ordering
facts. -/
theorem C1_amended_ordering_witness :
    ([[("FilingDate", Value.leaf "3/1/2024")], [("FilingDate", Value.leaf "1/15/2024")]]
        : List Record).Pairwise
      (fun a b => parse_filing_date b ≤ parse_filing_date a) :=
  (C1_amended_ordering exArchiveDates
    [[("FilingDate", Value.leaf "3/1/2024")], [("FilingDate", Value.leaf "1/15/2024")]]
    rfl).1

/-- C4: `convert_zip_xml_to_json` fails with the malformed-archive error
carrying the observed count exactly when the number of case-insensitive
`.xml` entries differs from one; with exactly one such entry this error is
never raised (though parse or sort errors still may be). -/
theorem C4_malformed_archive_iff (archive : List ZipEntry) :
    ((∃ n, convert_zip_xml_to_json archive = .error (.malformedArchive n))
        ↔ (xml_entries archive).length ≠ 1)
    ∧ ∀ n, convert_zip_xml_to_json archive = .error (.malformedArchive n) →
        n = (xml_entries archive).length := by
  unfold convert_zip_xml_to_json
  rcases hx : xml_entries archive with - | ⟨e, - | ⟨e2, rest⟩⟩
  · dsimp only
    constructor
    · constructor
      · intro _; simp
      · intro _; exact ⟨0, rfl⟩
    · intro n h
      have h' := h
      simp only [Except.error.injEq, ConvError.malformedArchive.injEq] at h'
      simp [h'.symm]
  · dsimp only
    have hnot : ∀ n,
        (match e.content with
          | none => Except.error ConvError.parseError
          | some root =>
            match sort_members
                ((findallDescendants "Member" root).map xml_member_to_dict) with
            | some sorted => Except.ok sorted
            | none => Except.error ConvError.typeError)
          ≠ Except.error (ConvError.malformedArchive n) := by
      intro n h
      cases hc : e.content with
      | none =>
        rw [hc] at h
        exact absurd h (by simp)
      | some root =>
        rw [hc] at h
        dsimp only at h
        cases hs : sort_members
            ((findallDescendants "Member" root).map xml_member_to_dict) with
        | none => rw [hs] at h; exact absurd h (by simp)
        | some s => rw [hs] at h; exact absurd h (by simp)
    constructor
    · constructor
      · rintro ⟨n, h⟩
        exact absurd h (hnot n)
      · intro h
        exact absurd rfl h
    · intro n h
      exact absurd h (hnot n)
  · dsimp only
    constructor
    · constructor
      · intro _; simp
      · intro _; exact ⟨(e :: e2 :: rest).length, rfl⟩
    · intro n h
      have h' := h
      simp only [Except.error.injEq, ConvError.malformedArchive.injEq] at h'
      simp [h'.symm]

/-- Witness for C4: a two-entry archive fails with the malformed-archive
error, and its reported count is the observed entry count 2. -/
theorem C4_malformed_archive_iff_witness :
    ∃ n, convert_zip_xml_to_json exArchiveTwoXml
      = .error (.malformedArchive n) :=
  (C4_malformed_archive_iff exArchiveTwoXml).1.mpr (by decide)

/-- C2: the retrieved and failed lists partition the set of input records
with a truthy `DocID` — their sizes add up to the count of such records,
and no document identifier appears in both lists (a failed record keeps
its original `DocID` under the added `download_error` field). -/
theorem C2_partition_complete (fetch : Value → Option String) (ds : List Record) :
    (download_pdfs fetch ds).1.length + (download_pdfs fetch ds).2.length
        = (ds.filter eligible).length
    ∧ ∀ r ∈ (download_pdfs fetch ds).1, ∀ r' ∈ (download_pdfs fetch ds).2,
        doc_id_val r ≠ doc_id_val r' := by
  refine ⟨download_pdfs_count fetch ds, ?_⟩
  intro r hr r' hr'
  obtain ⟨-, -, hnone⟩ := (mem_download_pdfs_succ fetch r ds).mp hr
  obtain ⟨d', -, -, e, hsome, rfl⟩ := (mem_download_pdfs_failed fetch r' ds).mp hr'
  rw [doc_id_val_dictInsert_err]
  intro heq
  rw [heq, hsome] at hnone
  exact Option.noConfusion hnone

/-- Witness for C2 on a three-record input (one success, one 404 failure,
one record with no `DocID`): 1 + 1 = 2 eligible records, and the retrieved
and failed records carry distinct identifiers. -/
theorem C2_partition_complete_witness :
    ((download_pdfs fetchFails404 [recDocOk, recDocBad, recNoDoc]).1.length
        + (download_pdfs fetchFails404 [recDocOk, recDocBad, recNoDoc]).2.length
        = ([recDocOk, recDocBad, recNoDoc].filter eligible).length)
    ∧ doc_id_val recDocOk
        ≠ doc_id_val (dictInsert recDocBad "download_error"
            (.leaf "404 Client Error: Not Found")) :=
  ⟨(C2_partition_complete fetchFails404 [recDocOk, recDocBad, recNoDoc]).1,
   (C2_partition_complete fetchFails404 [recDocOk, recDocBad, recNoDoc]).2
     recDocOk (List.Mem.head _)
     (dictInsert recDocBad "download_error" (.leaf "404 Client Error: Not Found"))
     (List.Mem.head _)⟩

/-- C3: a fetch failure on one record does not stop the loop — every
record with a truthy `DocID` appearing after the failed record is still
attempted and lands in the retrieved list (fetch succeeded) or, augmented
with its `download_error`, in the failed list (fetch failed). -/
theorem C3_failure_isolation (fetch : Value → Option String)
    (ds₁ ds₂ : List Record) (d₀ dd : Record) (e₀ : String)
    (h₀ : eligible d₀ = true) (hf : fetch (doc_id_val d₀) = some e₀)
    (hd : dd ∈ ds₂) (he : eligible dd = true) :
    (fetch (doc_id_val dd) = none
        ∧ dd ∈ (download_pdfs fetch (ds₁ ++ d₀ :: ds₂)).1)
    ∨ ∃ e, fetch (doc_id_val dd) = some e
        ∧ dictInsert dd "download_error" (.leaf e)
            ∈ (download_pdfs fetch (ds₁ ++ d₀ :: ds₂)).2 := by
  have hdd : dd ∈ ds₁ ++ d₀ :: ds₂ :=
    List.mem_append_right _ (List.mem_cons_of_mem _ hd)
  cases hfd : fetch (doc_id_val dd) with
  | none =>
    exact Or.inl ⟨rfl, (mem_download_pdfs_succ fetch dd _).mpr ⟨hdd, he, hfd⟩⟩
  | some e =>
    exact Or.inr ⟨e, rfl,
      (mem_download_pdfs_failed fetch _ _).mpr ⟨dd, hdd, he, e, hfd, rfl⟩⟩

/-- Witness for C3: the record after the 404-failing record is still
attempted and retrieved. -/
theorem C3_failure_isolation_witness :
    (fetchFails404 (doc_id_val recDocOk) = none
        ∧ recDocOk ∈ (download_pdfs fetchFails404 ([] ++ recDocBad :: [recDocOk])).1)
    ∨ ∃ e, fetchFails404 (doc_id_val recDocOk) = some e
        ∧ dictInsert recDocOk "download_error" (.leaf e)
            ∈ (download_pdfs fetchFails404 ([] ++ recDocBad :: [recDocOk])).2 :=
  C3_failure_isolation fetchFails404 [] [recDocOk] recDocBad recDocOk
    "404 Client Error: Not Found" rfl rfl (List.Mem.head _) rfl

/-- C5: a record whose `DocID` is absent or empty(-falsy) is skipped
entirely — the loop's outputs on any input containing it are exactly the
outputs on the input without it, so it reaches neither list and causes no
error. -/
theorem C5_skip_missing_docid (fetch : Value → Option String)
    (ds₁ ds₂ : List Record) (d : Record) (hd : eligible d = false) :
    download_pdfs fetch (ds₁ ++ d :: ds₂) = download_pdfs fetch (ds₁ ++ ds₂) :=
  download_pdfs_skip fetch d hd ds₁ ds₂

/-- Witness for C5: inserting the `DocID`-less record between two others
leaves the outputs unchanged. -/
theorem C5_skip_missing_docid_witness :
    download_pdfs fetchFails404 ([recDocOk] ++ recNoDoc :: [recDocBad])
      = download_pdfs fetchFails404 ([recDocOk] ++ [recDocBad]) :=
  C5_skip_missing_docid fetchFails404 [recDocOk] [recDocBad] recNoDoc rfl

/-- C6 fails on the code: on a run where every fetch succeeds the loop
finishes, the three count lines are printed, and then the final summary
line raises `UnboundLocalError` because `failed_download_path` is assigned
only inside `if failed_downloads:` — so a zero-failure run never completes
cleanly, contradicting the claim; with at least one failure the full
five-line summary is emitted without error. -/
theorem C6_summary_unbound_local :
    download_pdfs_summary (fun _ => none) "/home/user" [recDocOk]
      = (["Download Summary:", "Total Documents: 1", "Successful Downloads: 1",
          "Failed Downloads: 0"],
         some (.unboundLocal "failed_download_path"))
    ∧ download_pdfs_summary fetchFails404 "/home/user" [recDocOk, recDocBad]
      = (["Download Summary:", "Total Documents: 2", "Successful Downloads: 1",
          "Failed Downloads: 1",
          "Failed downloads logged to /home/user/Downloads/CongressionalFDs/failed_files.json"],
         none) :=
  ⟨rfl, rfl⟩

/-- C9 as stated is false: the archive fetcher returns the bare failure
value `None` (here `([], none)`: no file written, no path returned), which
is identical for a timeout and for an HTTP 404, so no reading of the
returned value can recover the underlying cause — the cause is only
printed to the console. -/
theorem C9_counterexample : ¬ C9CarriesCause := by
  rintro ⟨recover, hrec⟩
  have h1 := hrec (fun _ => .error "Read timed out.") "/home/user" 2024
    "Read timed out." rfl
  have h2 := hrec (fun _ => .error "404 Client Error") "/home/user" 2024
    "404 Client Error" rfl
  rw [show download_zip_file (fun _ => .error "Read timed out.") "/home/user" 2024
      = ([], none) from rfl] at h1
  rw [show download_zip_file (fun _ => .error "404 Client Error") "/home/user" 2024
      = ([], none) from rfl] at h2
  rw [h1] at h2
  exact absurd h2 (by decide)

/-- C9 amended: on any transport failure or non-2xx status the fetcher
returns the explicit failure value `None` without writing a file and
without raising (the model is total), the cause being reported on the
console only; on success it writes the full body to the year-derived path
and returns that path. -/
theorem C9_amended_fetch (net : String → Except String String) (home : String)
    (year : Nat) :
    (∀ c, net (fd_zip_url year) = .error c →
        download_zip_file net home year = ([], none))
    ∧ ∀ body, net (fd_zip_url year) = .ok body →
        download_zip_file net home year
          = ([(zip_output_path home year, body)], some (zip_output_path home year)) := by
  constructor
  · intro c hc
    unfold download_zip_file
    rw [hc]
  · intro body hb
    unfold download_zip_file
    rw [hb]

/-- Witness for the amended C9: a successful fetch writes the body to the
year-derived path and returns that path. -/
theorem C9_amended_fetch_witness :
    download_zip_file (fun _ => .ok "PKdata") "/home/user" 2024
      = ([(zip_output_path "/home/user" 2024, "PKdata")],
         some (zip_output_path "/home/user" 2024)) :=
  (C9_amended_fetch (fun _ => .ok "PKdata") "/home/user" 2024).2 "PKdata" rfl

-- Concrete evaluations of the embedding on small inputs.
example : parse_mdy "3/1/2024" = some (2024, 3, 1) := rfl
example : parse_mdy "1/1/0001" = some (1, 1, 1) := rfl
example : parse_mdy "2/30/2024" = none := rfl
example : parse_mdy "2/29/2024" = some (2024, 2, 29) := rfl
example : parse_mdy "2/29/2023" = none := rfl
example : parse_mdy "13/1/2024" = none := rfl
example : parse_mdy "1/1/24" = none := rfl
example : parse_mdy "" = none := rfl
example : endsWithXml "2024FD.XML" = true := rfl
example : endsWithXml "readme.txt" = false := rfl
example : convert_zip_xml_to_json exArchiveMin = .ok [exRecNoDate, exRecMinDate] := rfl
example :
    convert_zip_xml_to_json exArchiveDates
      = .ok [[("FilingDate", .leaf "3/1/2024")], [("FilingDate", .leaf "1/15/2024")]] := rfl
example : convert_zip_xml_to_json [] = .error (.malformedArchive 0) := rfl
example :
    xml_member_to_dict (.node "Member" none
      (.cons (.node "A" (some "x") .nil)
      (.cons (.node "A" (some "y") .nil) .nil)))
      = [("A", .leaf "y")] := rfl
example :
    xml_member_to_dict (.node "Member" none
      (.cons (.node "N" none (.cons (.node "I" (some "v") .nil) .nil)) .nil))
      = [("N", .nested [("I", .leaf "v")])] := rfl
example :
    download_pdfs (fun _ => none) [[("DocID", .leaf "10001")], [("Last", .leaf "x")]]
      = ([[("DocID", .leaf "10001")]], []) := rfl
example :
    download_pdfs (fun _ => some "404") [[("DocID", .leaf "10001")]]
      = ([], [[("DocID", .leaf "10001"), ("download_error", .leaf "404")]]) := rfl
example :
    (download_pdfs_summary (fun _ => none) "H" [[("DocID", .leaf "10001")]]).2
      = some (.unboundLocal "failed_download_path") := rfl

